import Mathlib

/-!
Verification of the agent session orchestrator of `pyfiles/agents/agent.py`.

The development embeds, as executable Lean functions:
* the Tag Separator `Agent._separate_ai_messages` (regex search for a closed
  `<think>...</think>` block, `re.sub` removal of all closed blocks, and the
  unclosed-tag fallback), modelled on `List Char`;
* the Mode Resolver `Agent._update_current_state` (10-message cap applied to
  the reversed history, per-mode truncation, checkpoint write, transcript view);
* the Response Stream Assembler `Agent._astream_response` (baseline diffing,
  echo filtering, fingerprint deduplication, entry construction);
* the Session Orchestrator `Agent.aget_agent_response` together with the
  persistence write `Agent._update_thread_history`, with collaborator failures
  made explicit through `Except`.
-/

namespace PyCoder

/-! ### Characters and whitespace (Python `str.strip` / regex `\s`) -/

/-- Python whitespace for `str.strip` and the regex class `\s`:
space, tab, newline, carriage return, vertical tab, form feed. -/
def pyIsSpace (c : Char) : Bool :=
  c == ' ' || c == '\t' || c == '\n' || c == '\r' ||
    c == Char.ofNat 11 || c == Char.ofNat 12

/-- `str.strip()`: drop leading and trailing Python whitespace. -/
def stripChars (l : List Char) : List Char :=
  ((l.dropWhile pyIsSpace).reverse.dropWhile pyIsSpace).reverse

/-- The literal opening tag `<think>`. -/
def openTag : List Char := ['<', 't', 'h', 'i', 'n', 'k', '>']

/-- The literal closing tag `</think>`. -/
def closeTag : List Char := ['<', '/', 't', 'h', 'i', 'n', 'k', '>']

/-- Index of the first occurrence of `pat` inside `l`
(`re.search` for a literal pattern). -/
def findSub (pat : List Char) : List Char → Option Nat
  | [] => if pat.isEmpty then some 0 else none
  | c :: rest =>
      if pat.isPrefixOf (c :: rest) then some 0
      else (findSub pat rest).map (· + 1)

/-- `re.search(r'<think>(.*?)</think>', text, DOTALL)`: returns
`some (i, j)` where `i` is the start of the `<think>` of the first match and
`j` the start of the matching `</think>` (the first `</think>` at or beyond
`i + 7`); `none` when no closed block exists.  As in the regex engine, start
positions are tried left to right, and a `<think>` with no `</think>` after
it cannot anchor a match. -/
def searchClosed : List Char → Option (Nat × Nat)
  | [] => none
  | c :: rest =>
      if openTag.isPrefixOf (c :: rest) then
        match findSub closeTag ((c :: rest).drop 7) with
        | some d => some (0, 7 + d)
        | none => (searchClosed rest).map (fun p => (p.1 + 1, p.2 + 1))
      else (searchClosed rest).map (fun p => (p.1 + 1, p.2 + 1))

/-- Length of the maximal whitespace run at the end of `l`
(the backtrackable leading `\s*` of the removal pattern). -/
def wsTrailLen (l : List Char) : Nat := (l.reverse.takeWhile pyIsSpace).length

/-- Length of the maximal whitespace run at the start of `l`
(the greedy trailing `\s*` of the removal pattern). -/
def wsLeadLen (l : List Char) : Nat := (l.takeWhile pyIsSpace).length

/-- One pass of `re.sub(r'\s*<think>.*?</think>\s*', '', text, DOTALL)`:
each non-overlapping match, scanned left to right, removes a closed block
together with the whitespace immediately before and after it.  The fuel
argument only bounds the recursion; every match removes at least the
15 characters of the two tags, so `s.length` fuel is never exhausted. -/
def removeBlocksAux : Nat → List Char → List Char
  | 0, s => s
  | fuel + 1, s =>
      match searchClosed s with
      | none => s
      | some pq =>
          let st := pq.1 - wsTrailLen (s.take pq.1)
          let en := pq.2 + 8 + wsLeadLen (s.drop (pq.2 + 8))
          s.take st ++ removeBlocksAux fuel (s.drop en)

/-- `re.sub(r'\s*<think>.*?</think>\s*', '', text, DOTALL)`. -/
def removeBlocks (s : List Char) : List Char := removeBlocksAux s.length s

/-- `text.split('\n', 1)`: the part before the first newline, and the part
after it when a newline exists. -/
def splitFirstNl : List Char → List Char × Option (List Char)
  | [] => ([], none)
  | c :: rest =>
      if c == '\n' then ([], some rest)
      else
        let r := splitFirstNl rest
        (c :: r.1, r.2)

/-- `Agent._separate_ai_messages` on the character list of a non-null input:
1. a closed `<think>...</think>` block exists: the trimmed content of the
   first block, and the input with all closed blocks removed by the
   whitespace-absorbing `re.sub`, trimmed;
2. otherwise an unclosed `<think>` exists: the trimmed remainder after the
   tag is split at its first newline;
3. otherwise the input is returned unchanged as the second component. -/
def separateAiMessagesChars (t : List Char) : List Char × List Char :=
  match searchClosed t with
  | some pq =>
      (stripChars ((t.drop (pq.1 + 7)).take (pq.2 - (pq.1 + 7))),
       stripChars (removeBlocks t))
  | none =>
      match findSub openTag t with
      | some p =>
          let insideContent := stripChars (t.drop (p + 7))
          match splitFirstNl insideContent with
          | (first, some rest) => (stripChars first, stripChars rest)
          | (_, none) => ([], stripChars insideContent)
      | none => ([], t)

/-- `Agent._separate_ai_messages` on strings:
`(inside_tags, outside_tags)`, i.e. (reasoning, final). -/
def separateAiMessages (t : String) : String × String :=
  let r := separateAiMessagesChars t.data
  (r.1.asString, r.2.asString)

example : separateAiMessages "<think>Some context</think> This is actual content."
    = ("Some context", "This is actual content.") := by decide

example : separateAiMessages "<think>First</think> and <think>Second</think>"
    = ("First", "and") := by decide

example : separateAiMessages "<think> Some content" = ("", "Some content") := by
  decide

example : separateAiMessages "lone </think> stays" = ("", "lone </think> stays") := by
  decide

example : separateAiMessages "<think>a\nb</think>x<think>c</think>y" = ("a\nb", "xy") := by
  decide

example : separateAiMessages "<think>r\nfinal text" = ("r", "final text") := by
  decide

example : separateAiMessages "a <think>x</think> b" = ("x", "ab") := by decide

/-! ### Data model: wire-shape transcript entries and typed messages -/

/-- A transcript entry in the wire shape stored in the SQLite thread content
and rendered by the chatbot: `{role, content, metadata}`. -/
structure Wire where
  role : String
  content : String
  metadata : List (String × String)
deriving DecidableEq, Repr

/-- A typed LangChain message: `HumanMessage`, `AIMessage`, `ToolMessage`
(which carries a tool name), or any other `BaseMessage` subclass. -/
inductive BaseMsg where
  | human (content : String) (meta : List (String × String))
  | ai (content : String) (meta : List (String × String))
  | tool (name : String) (content : String)
  | otherMsg (content : String)
deriving DecidableEq, Repr

/-- An element of the JSON-decoded persisted history: a dict-shaped entry,
an already-typed message, or a value of any other shape. -/
inductive StoredEntry where
  | wire (m : Wire)
  | typed (m : BaseMsg)
  | otherEntry
deriving DecidableEq, Repr

/-- The standardization step of `_update_current_state`'s loop: a dict with
role `user` / `assistant` becomes a `HumanMessage` / `AIMessage`, an
already-typed `HumanMessage` or `AIMessage` is kept, everything else is
dropped. -/
def convertEntry : StoredEntry → Option BaseMsg
  | .wire m =>
      if m.role = "user" then some (.human m.content m.metadata)
      else if m.role = "assistant" then some (.ai m.content m.metadata)
      else none
  | .typed (.human c md) => some (.human c md)
  | .typed (.ai c md) => some (.ai c md)
  | .typed _ => none
  | .otherEntry => none

/-- The capping loop of `_update_current_state`: walk the reversed history,
append each convertible entry, count every entry scanned, and stop once 10
entries (convertible or not) have been scanned. -/
def capLoop : List StoredEntry → Nat → List BaseMsg → List BaseMsg
  | [], _, acc => acc
  | e :: rest, n, acc =>
      let acc2 := match convertEntry e with
        | some m => acc ++ [m]
        | none => acc
      if n + 1 = 10 then acc2 else capLoop rest (n + 1) acc2

/-- The capped, standardized copy of a persisted history: the history is
reversed, at most 10 entries are scanned and converted, and the result is
reversed back to chronological order. -/
def capConvert (history : List StoredEntry) : List BaseMsg :=
  (capLoop history.reverse 0 []).reverse

/-- The index of the last `HumanMessage` of the list, tracked exactly as the
chronological scan of the `retry`/`undo` branch does. -/
def findLastUserAux : List BaseMsg → Nat → Option Nat → Option Nat
  | [], _, acc => acc
  | m :: rest, i, acc =>
      findLastUserAux rest (i + 1) (match m with | .human _ _ => some i | _ => acc)

/-- `latest_index` of the `retry`/`undo` branch. -/
def findLastUser (l : List BaseMsg) : Option Nat := findLastUserAux l 0 none

/-- Python slicing `l[:latest_index]`: `l[:None]` keeps the whole list. -/
def truncAt (l : List BaseMsg) : Option Nat → List BaseMsg
  | none => l
  | some i => l.take i

/-- `.content` of a typed message. -/
def baseMsgContent : BaseMsg → String
  | .human c _ => c
  | .ai c _ => c
  | .tool _ c => c
  | .otherMsg c => c

/-- The transcript-rebuilding loop of `_update_current_state`: a
`HumanMessage` becomes a user entry, an `AIMessage` an assistant entry,
anything else is skipped. -/
def toWire : BaseMsg → Option Wire
  | .human c md => some ⟨"user", c, md⟩
  | .ai c md => some ⟨"assistant", c, md⟩
  | _ => none

/-! ### Mode Resolver (`Agent._update_current_state`) -/

/-- The chat mode. -/
inductive Mode where
  | main
  | retry
  | undo
  | edit
deriving DecidableEq, Repr

/-- The gradio `EditData` payload: the index of the edited message (`none`
models a non-`int` index) and the new message value. -/
structure EditData where
  index : Option Nat
  value : String
deriving DecidableEq, Repr

/-- What `_update_current_state` returns and does: the (possibly replaced)
query, the rebuilt transcript view, the thread's `source` and `group`
labels, and the message list written to the agent checkpoint by
`update_state` (`none` when `update_state` is not called). -/
structure ResolveResult where
  query : String
  transcript : List Wire
  source : String
  group : String
  stateWrite : Option (List BaseMsg)
deriving DecidableEq, Repr

/-- The trailing transcript entry echoing the user's query. -/
def echoWire (q : String) : Wire := ⟨"user", q, [("title", "User Message")]⟩

/-- `Agent._update_current_state`, given the already-loaded thread record
fields (`content` decoded from JSON, `source`, `group`).  The capped history
is truncated per mode, the checkpoint is overwritten for
`retry`/`edit`/`main` when the capped history is non-empty, and the
transcript view is rebuilt with the echoed query appended when non-empty. -/
def updateCurrentState (query0 : String) (history : List StoredEntry)
    (source : String) (group : String) (mode : Mode)
    (editData : Option EditData) : ResolveResult :=
  let conv0 := capConvert history
  let step1 : String × List BaseMsg × Option (List BaseMsg) :=
    if conv0.isEmpty then (query0, conv0, none)
    else
      let qc : String × List BaseMsg :=
        if mode = .retry ∨ mode = .undo then
          let li := findLastUser conv0
          let q :=
            if mode = .retry then
              match li with
              | some i => baseMsgContent (conv0.getD i (.human "" []))
              | none => query0
            else ""
          (q, truncAt conv0 li)
        else if mode = .edit then
          match editData with
          | some ed =>
              (ed.value, match ed.index with
                | some i => conv0.take i
                | none => conv0)
          | none => (query0, conv0)
        else (query0, conv0)
      let sw := if mode = .retry ∨ mode = .edit ∨ mode = .main
        then some qc.2 else none
      (qc.1, qc.2, sw)
  let ts0 := step1.2.1.filterMap toWire
  let ts := if step1.1 = "" then ts0 else ts0 ++ [echoWire step1.1]
  ⟨step1.1, ts, source, group, step1.2.2⟩

/-- Scenario D: `undo` on `[user:"Hello", assistant:"Hi there!"]`. -/
example :
    updateCurrentState "x" [.wire ⟨"user", "Hello", []⟩, .wire ⟨"assistant", "Hi there!", []⟩]
      "s" "g" .undo none
    = ⟨"", [], "s", "g", none⟩ := by decide

/-- Scenario E: `retry` on the same history. -/
example :
    updateCurrentState "x" [.wire ⟨"user", "Hello", []⟩, .wire ⟨"assistant", "Hi there!", []⟩]
      "s" "g" .retry none
    = ⟨"Hello", [⟨"user", "Hello", [("title", "User Message")]⟩], "s", "g", some []⟩ := by
  decide

/-- Scenario F: `edit` with index 1 and value `"Edited message"`. -/
example :
    updateCurrentState "x" [.wire ⟨"user", "Hello", []⟩, .wire ⟨"assistant", "Hi there!", []⟩]
      "s" "g" .edit (some ⟨some 1, "Edited message"⟩)
    = ⟨"Edited message",
       [⟨"user", "Hello", []⟩, ⟨"user", "Edited message", [("title", "User Message")]⟩],
       "s", "g", some [.human "Hello" []]⟩ := by decide

/-! ### Response Stream Assembler (`Agent._astream_response`) -/

/-- The constructor tag of a typed message, standing for `type(content_part)`
in the fingerprint `hash((type(content_part), content_part.content))`. -/
inductive MsgKind where
  | humanK
  | aiK
  | toolK
  | otherK
deriving DecidableEq, Repr

/-- `type(content_part)`. -/
def msgKind : BaseMsg → MsgKind
  | .human _ _ => .humanK
  | .ai _ _ => .aiK
  | .tool _ _ => .toolK
  | .otherMsg _ => .otherK

/-- The dedup fingerprint `(type(content_part), content_part.content)`. -/
def fingerprint (m : BaseMsg) : MsgKind × String := (msgKind m, baseMsgContent m)

/-- The transcript entry appended for a non-empty reasoning part. -/
def thinkEntry (c : String) : Wire :=
  ⟨"assistant", c, [("title", "Assistant Thinking..."), ("status", "done")]⟩

/-- The transcript entry appended for a non-empty final part. -/
def answerEntry (c : String) : Wire :=
  ⟨"assistant", c, [("title", "Assistant Message")]⟩

/-- `f"\nContent from \`{content_part.name}\` toolcall:\n{content_part.content}"`. -/
def toolContentString (name : String) (c : String) : String :=
  "\nContent from `" ++ name ++ "` toolcall:\n" ++ c

/-- The transcript entry appended for a tool message. -/
def toolEntry (c : String) : Wire :=
  ⟨"assistant", c, [("title", "Tool call output"), ("status", "done")]⟩

/-- The state threaded through one `_astream_response` call: the shared
transcript list being appended to, `processed_hashes`, and the sequence of
yielded snapshots. -/
structure StreamState where
  transcript : List Wire
  hashes : List (MsgKind × String)
  yields : List (List Wire)
deriving DecidableEq, Repr

/-- Processing of one new message inside a step: skip it if its fingerprint
was already seen this call, otherwise mark it seen; an `AIMessage` is run
through the Tag Separator, appending (and yielding) an entry for a non-empty
reasoning part and one for a non-empty final part; a `ToolMessage` appends
(and yields) a tool-output entry; other kinds append nothing. -/
def processOne (st : StreamState) (m : BaseMsg) : StreamState :=
  if fingerprint m ∈ st.hashes then st
  else
    let st1 : StreamState := ⟨st.transcript, fingerprint m :: st.hashes, st.yields⟩
    match m with
    | .ai c _ =>
        let io := separateAiMessages c
        let st2 :=
          if io.1 ≠ "" then
            let t2 := st1.transcript ++ [thinkEntry io.1]
            (⟨t2, st1.hashes, st1.yields ++ [t2]⟩ : StreamState)
          else st1
        if io.2 ≠ "" then
          let t3 := st2.transcript ++ [answerEntry io.2]
          ⟨t3, st2.hashes, st2.yields ++ [t3]⟩
        else st2
    | .tool name c =>
        let out := toolContentString name c
        if out ≠ "" then
          let t2 := st1.transcript ++ [toolEntry out]
          ⟨t2, st1.hashes, st1.yields ++ [t2]⟩
        else st1
    | _ => st1

/-- The echo filter: a `HumanMessage` whose content equals the submitted
query is dropped before deduplication. -/
def isEchoOfQuery (q : String) (m : BaseMsg) : Bool :=
  match m with
  | .human c _ => c == q
  | _ => false

/-- Processing of one cumulative step: nothing happens when the step carries
no messages; otherwise the suffix beyond the baseline count is taken, echoes
of the query are dropped, and each remaining message is processed. -/
def processStep (q : String) (baseline : Nat) (st : StreamState)
    (msgs : List BaseMsg) : StreamState :=
  if msgs.isEmpty then st
  else ((msgs.drop baseline).filter (fun m => !(isEchoOfQuery q m))).foldl processOne st

/-- `Agent._astream_response` over a finished stream of cumulative steps:
with an empty query nothing is processed; otherwise the steps are folded in
order starting from the transcript produced by the Mode Resolver. -/
def astreamResponse (t0 : List Wire) (q : String) (baseline : Nat)
    (steps : List (List BaseMsg)) : StreamState :=
  if q = "" then ⟨t0, [], []⟩
  else steps.foldl (processStep q baseline) ⟨t0, [], []⟩

/-! ### Session Orchestrator (`Agent.aget_agent_response`) -/

/-- The error taxonomy: `KeyError` from a missing thread record,
`ValueError` from a null Tag Separator input, a collaborator (store) failure,
and a failure raised mid-iteration of the agent engine's stream. -/
inductive AgentError where
  | keyError
  | validationError
  | collaboratorFailure
  | streamFailure
deriving DecidableEq, Repr

/-- Folding of the engine's cooperative stream when a step may raise: the
first raising step aborts the iteration and propagates its error. -/
def runSteps (q : String) (baseline : Nat) :
    List (Except AgentError (List BaseMsg)) → StreamState →
      Except AgentError StreamState
  | [], st => .ok st
  | .error e :: _, _ => .error e
  | .ok msgs :: rest, st => runSteps q baseline rest (processStep q baseline st msgs)

/-- `Agent._astream_response` with engine failures made explicit.  With an
empty query the engine is never invoked, so no stream error can surface. -/
def astreamResponseE (t0 : List Wire) (q : String) (baseline : Nat)
    (steps : List (Except AgentError (List BaseMsg))) :
    Except AgentError StreamState :=
  if q = "" then .ok ⟨t0, [], []⟩
  else runSteps q baseline steps ⟨t0, [], []⟩

/-- One persisted thread record: the JSON-decoded `content` list and the
`source` and `group` labels. -/
structure ThreadRecord where
  content : List StoredEntry
  source : String
  group : String

/-- The persisted history store, keyed by thread id. -/
def ThreadStore : Type := String → Option ThreadRecord

/-- `Agent._update_thread_history`: replace the thread's record with the
serialized final transcript, tagged with `group` and `source`. -/
def updateThreadHistory (store : ThreadStore) (thread : String)
    (transcript : List Wire) (group : String) (source : String) : ThreadStore :=
  fun t => if t = thread then some ⟨transcript.map .wire, source, group⟩ else store t

/-- `Agent._update_current_state` including the persisted-store read: a
missing thread record raises `KeyError` on the `source` lookup. -/
def updateCurrentStateE (store : ThreadStore) (thread : String)
    (query : String) (mode : Mode) (editData : Option EditData) :
    Except AgentError ResolveResult :=
  match store thread with
  | none => .error .keyError
  | some trec => .ok (updateCurrentState query trec.content trec.source trec.group mode editData)

/-- The outcome of one `aget_agent_response` call: either the sequence of
yielded snapshots or the propagated error, together with the persisted store
after the call. -/
structure TurnOutcome where
  result : Except AgentError (List (List Wire))
  store : ThreadStore

/-- `Agent.aget_agent_response`: resolve the mode (in `main` mode the
returned query is discarded and the caller's query reused), yield the
resolved transcript, stream the agent response re-yielding each snapshot,
and only after the stream is exhausted write the final transcript back to
the persisted store; any resolver or stream error propagates and skips the
write. -/
def agetAgentResponse (store : ThreadStore) (thread : String) (query : String)
    (mode : Mode) (editData : Option EditData) (baseline : Nat)
    (steps : List (Except AgentError (List BaseMsg))) : TurnOutcome :=
  match updateCurrentStateE store thread query mode editData with
  | .error e => ⟨.error e, store⟩
  | .ok r =>
      let q := if mode = .main then query else r.query
      match astreamResponseE r.transcript q baseline steps with
      | .error e => ⟨.error e, store⟩
      | .ok st =>
          ⟨.ok (r.transcript :: st.yields),
           updateThreadHistory store thread st.transcript r.group r.source⟩

/-! ### Lemmas about the capping loop -/

theorem capLoop_eq : ∀ (l : List StoredEntry) (n : Nat) (acc : List BaseMsg),
    n < 10 → capLoop l n acc = acc ++ (l.take (10 - n)).filterMap convertEntry
  | [], n, acc, _ => by simp [capLoop]
  | e :: rest, n, acc, hn => by
      cases hce : convertEntry e with
      | none =>
          by_cases h10 : n + 1 = 10
          · have h2 : 10 - n = 1 := by omega
            simp [capLoop, hce, h10, h2]
          · have h1 : 10 - n = (10 - (n + 1)) + 1 := by omega
            rw [h1]
            simp [capLoop, hce, h10, capLoop_eq rest (n + 1) acc (by omega)]
      | some m =>
          by_cases h10 : n + 1 = 10
          · have h2 : 10 - n = 1 := by omega
            simp [capLoop, hce, h10, h2]
          · have h1 : 10 - n = (10 - (n + 1)) + 1 := by omega
            rw [h1]
            simp [capLoop, hce, h10, capLoop_eq rest (n + 1) (acc ++ [m]) (by omega)]

/-- The capped standardization in closed form: exactly the 10 most recent
entries are scanned (convertible or not), then converted. -/
theorem capConvert_eq (h : List StoredEntry) :
    capConvert h = ((h.reverse.take 10).filterMap convertEntry).reverse := by
  unfold capConvert
  rw [capLoop_eq h.reverse 0 [] (by omega)]
  simp

/-! ### Lemmas about the tag search -/

theorem searchClosed_eq_none : ∀ (t : List Char),
    findSub openTag t = none → searchClosed t = none
  | [], _ => rfl
  | c :: rest, h => by
      by_cases hp : openTag.isPrefixOf (c :: rest)
      · rw [findSub, if_pos hp] at h
        exact absurd h (by simp)
      · rw [findSub, if_neg hp] at h
        have hrest : findSub openTag rest = none := by
          cases hfs : findSub openTag rest
          · rfl
          · rw [hfs] at h; simp at h
        simp only [searchClosed, if_neg hp, searchClosed_eq_none rest hrest]
        rfl

theorem searchClosed_found : ∀ (t : List Char) (p d : Nat),
    findSub openTag t = some p →
    findSub closeTag (t.drop (p + 7)) = some d →
    searchClosed t = some (p, p + 7 + d)
  | [], p, d, hp, _ => by
      simp [findSub, openTag] at hp
  | c :: rest, p, d, hp, hd => by
      by_cases hpre : openTag.isPrefixOf (c :: rest)
      · rw [findSub, if_pos hpre] at hp
        have hp0 : p = 0 := by simpa using hp.symm
        subst hp0
        simp only [searchClosed, if_pos hpre]
        rw [hd]
      · rw [findSub, if_neg hpre] at hp
        cases hfs : findSub openTag rest with
        | none => rw [hfs] at hp; simp at hp
        | some p' =>
            rw [hfs] at hp
            have hp1 : p = p' + 1 := by simpa using hp.symm
            subst hp1
            have hd' : findSub closeTag (rest.drop (p' + 7)) = some d := by
              have : (c :: rest).drop (p' + 1 + 7) = rest.drop (p' + 7) := by
                simp [List.drop_succ_cons]
              rw [this] at hd
              exact hd
            simp only [searchClosed, if_neg hpre,
              searchClosed_found rest p' d hfs hd']
            have harith : p' + 7 + d + 1 = p' + 1 + 7 + d := by omega
            simp [harith]

/-! ### C9: tag-free inputs pass through unchanged -/

/-- C9: for every string with no `<think>` opening tag anywhere (a lone
`</think>` closing tag allowed), the Tag Separator returns an empty
reasoning part and the input itself, byte for byte (not trimmed, a lone
closing tag not stripped); applying the separator again to the final
component returns the same pair, so it is idempotent on its final component
for tag-free input. -/
theorem separate_tagfree_id (s : String) (h : findSub openTag s.data = none) :
    separateAiMessages s = ("", s) ∧
    separateAiMessages (separateAiMessages s).2 = ("", s) := by
  have h1 : separateAiMessages s = ("", s) := by
    unfold separateAiMessages separateAiMessagesChars
    rw [searchClosed_eq_none _ h, h]
    rfl
  exact ⟨h1, by rw [h1]; exact h1⟩

/-- C9 witness: a concrete tag-free string containing a lone `</think>`. -/
theorem separate_tagfree_id_witness :
    (findSub openTag ("answer </think> kept").data = none) ∧
    (separateAiMessages "answer </think> kept" = ("", "answer </think> kept") ∧
      separateAiMessages (separateAiMessages "answer </think> kept").2
        = ("", "answer </think> kept")) :=
  ⟨by decide, separate_tagfree_id "answer </think> kept" (by decide)⟩

/-! ### C4: closed think blocks (corrected) -/

/-- Modelled from the claim's words, for comparison with the source: remove
every closed block itself (first opening tag up to the first closing tag
after it) with no surrounding whitespace consumed. -/
def removeBlocksPlainAux : Nat → List Char → List Char
  | 0, s => s
  | fuel + 1, s =>
      match searchClosed s with
      | none => s
      | some pq => s.take pq.1 ++ removeBlocksPlainAux fuel (s.drop (pq.2 + 8))

/-- The transformation the claim describes for the final part: all closed
blocks removed (blocks only, no adjacent whitespace), then trimmed. -/
def removeBlocksPlain (s : List Char) : List Char :=
  removeBlocksPlainAux s.length s

/-- C4 counterexample: on `"a <think>x</think> b"` the code also removes
the whitespace around the block (`re.sub` pattern `\s*<think>.*?</think>\s*`),
giving final part `"ab"`, while removing the blocks alone and trimming would
give `"a  b"`. -/
theorem separate_final_not_plain_removal :
    separateAiMessages "a <think>x</think> b" = ("x", "ab") ∧
    (stripChars (removeBlocksPlain ("a <think>x</think> b").data)).asString = "a  b" ∧
    (separateAiMessages "a <think>x</think> b").2
      ≠ (stripChars (removeBlocksPlain ("a <think>x</think> b").data)).asString :=
  ⟨by decide, by decide, by decide⟩

/-- C4 (amended): for every input containing a closed `<think>...</think>`
block — the first opening tag at index `p`, the first closing tag after it
at offset `d` — the separator returns the trimmed content of that first
block, and the input with all closed blocks *and their adjacent whitespace*
removed, trimmed. -/
theorem separate_closed_block (t : String) (p d : Nat)
    (hp : findSub openTag t.data = some p)
    (hd : findSub closeTag (t.data.drop (p + 7)) = some d) :
    separateAiMessages t
      = ((stripChars ((t.data.drop (p + 7)).take d)).asString,
         (stripChars (removeBlocks t.data)).asString) := by
  unfold separateAiMessages separateAiMessagesChars
  rw [searchClosed_found t.data p d hp hd]
  have harith : p + 7 + d - (p + 7) = d := by omega
  simp [harith]

/-- C4 witness: Scenario B, `"<think>First</think> and <think>Second</think>"`. -/
theorem separate_closed_block_witness :
    (findSub openTag ("<think>First</think> and <think>Second</think>").data = some 0) ∧
    (findSub closeTag (("<think>First</think> and <think>Second</think>").data.drop 7)
      = some 5) ∧
    separateAiMessages "<think>First</think> and <think>Second</think>"
      = ((stripChars ((("<think>First</think> and <think>Second</think>").data.drop 7).take 5)).asString,
         (stripChars (removeBlocks ("<think>First</think> and <think>Second</think>").data)).asString) :=
  ⟨by decide, by decide,
    separate_closed_block "<think>First</think> and <think>Second</think>" 0 5
      (by decide) (by decide)⟩

/-! ### C3: retry and undo truncation -/

/-- C3: on a capped history containing a user message — the last one at
index `i` with content `m` — `retry` and `undo` truncate the history to the
part strictly before index `i`; `retry` replaces the query by that user
message's content and writes the truncated list to the checkpoint; `undo`
replaces the query by the empty string, writes no checkpoint, and its
transcript view is exactly the truncated list in wire shape. -/
theorem retry_undo_resolve (q0 src grp : String) (h : List StoredEntry)
    (i : Nat) (m : BaseMsg)
    (hli : findLastUser (capConvert h) = some i)
    (hm : (capConvert h)[i]? = some m) :
    ((updateCurrentState q0 h src grp .retry none).query = baseMsgContent m) ∧
    ((updateCurrentState q0 h src grp .retry none).stateWrite
      = some ((capConvert h).take i)) ∧
    ((updateCurrentState q0 h src grp .undo none).query = "") ∧
    ((updateCurrentState q0 h src grp .undo none).stateWrite = none) ∧
    ((updateCurrentState q0 h src grp .undo none).transcript
      = ((capConvert h).take i).filterMap toWire) := by
  have hne : (capConvert h).isEmpty = false := by
    cases hcc : capConvert h with
    | nil => rw [hcc] at hli; simp [findLastUser, findLastUserAux] at hli
    | cons a l => simp
  refine ⟨?_, ?_, ?_, ?_, ?_⟩ <;>
    simp [updateCurrentState, hne, hli, truncAt, hm]

/-- C3 witness: Scenario D/E history `[user:"Hello", assistant:"Hi there!"]`. -/
theorem retry_undo_resolve_witness :
    (findLastUser (capConvert
        [.wire ⟨"user", "Hello", []⟩, .wire ⟨"assistant", "Hi there!", []⟩]) = some 0) ∧
    ((capConvert
        [.wire ⟨"user", "Hello", []⟩, .wire ⟨"assistant", "Hi there!", []⟩])[0]?
      = some (.human "Hello" [])) ∧
    (((updateCurrentState "x"
        [.wire ⟨"user", "Hello", []⟩, .wire ⟨"assistant", "Hi there!", []⟩]
        "s" "g" .retry none).query = baseMsgContent (.human "Hello" [])) ∧
      ((updateCurrentState "x"
        [.wire ⟨"user", "Hello", []⟩, .wire ⟨"assistant", "Hi there!", []⟩]
        "s" "g" .retry none).stateWrite
        = some ((capConvert
            [.wire ⟨"user", "Hello", []⟩, .wire ⟨"assistant", "Hi there!", []⟩]).take 0)) ∧
      ((updateCurrentState "x"
        [.wire ⟨"user", "Hello", []⟩, .wire ⟨"assistant", "Hi there!", []⟩]
        "s" "g" .undo none).query = "") ∧
      ((updateCurrentState "x"
        [.wire ⟨"user", "Hello", []⟩, .wire ⟨"assistant", "Hi there!", []⟩]
        "s" "g" .undo none).stateWrite = none) ∧
      ((updateCurrentState "x"
        [.wire ⟨"user", "Hello", []⟩, .wire ⟨"assistant", "Hi there!", []⟩]
        "s" "g" .undo none).transcript
        = ((capConvert
            [.wire ⟨"user", "Hello", []⟩,
             .wire ⟨"assistant", "Hi there!", []⟩]).take 0).filterMap toWire)) :=
  ⟨by decide, by decide,
    retry_undo_resolve "x" "s" "g"
      [.wire ⟨"user", "Hello", []⟩, .wire ⟨"assistant", "Hi there!", []⟩]
      0 (.human "Hello" []) (by decide) (by decide)⟩

/-! ### C5: empty history (corrected) -/

/-- C5 counterexample: with an empty persisted history, `main` mode and the
non-empty incoming query `"hi"`, the returned transcript view is the echoed
user entry, not the empty list the claim asserts. -/
theorem empty_history_transcript_nonempty :
    (updateCurrentState "hi" [] "s" "g" .main none).transcript
      = [⟨"user", "hi", [("title", "User Message")]⟩] ∧
    (updateCurrentState "hi" [] "s" "g" .main none).transcript ≠ ([] : List Wire) :=
  ⟨by decide, by decide⟩

/-- C5 (amended): with an empty persisted history, for every mode and query,
Working State is not mutated, and the transcript view is empty when the
query is empty and is exactly the single echoed user entry otherwise. -/
theorem empty_history_resolve (q src grp : String) (mode : Mode)
    (ed : Option EditData) :
    ((updateCurrentState q [] src grp mode ed).stateWrite = none) ∧
    ((updateCurrentState q [] src grp mode ed).transcript
      = if q = "" then [] else [echoWire q]) := by
  constructor <;> simp [updateCurrentState, capConvert, capLoop]

/-! ### C6: edit mode with a missing payload (corrected) -/

/-- The two-message example thread store. -/
def exStore2 : ThreadStore := fun t =>
  if t = "t1" then
    some ⟨[.wire ⟨"user", "Hello", []⟩, .wire ⟨"assistant", "Hi there!", []⟩],
          "s", "g"⟩
  else none

/-- C6 counterexample: invoking the resolver in `edit` mode with a missing
payload returns normally (no `ValidationError` — the `if edit_data:` guard
silently skips the edit), leaving the query and the capped history
untouched. -/
theorem edit_missing_payload_no_error :
    (updateCurrentStateE exStore2 "t1" "hi" .edit none).toOption
      = some ⟨"hi",
          [⟨"user", "Hello", []⟩, ⟨"assistant", "Hi there!", []⟩, echoWire "hi"],
          "s", "g",
          some [.human "Hello" [], .ai "Hi there!" []]⟩ := by decide

/-- Resolving in `edit` mode with no payload is identical to `main` mode. -/
theorem updateCurrentState_edit_none (q : String) (h : List StoredEntry)
    (src grp : String) :
    updateCurrentState q h src grp .edit none
      = updateCurrentState q h src grp .main none := by
  simp [updateCurrentState]

/-- In `main` mode (and so in `edit` mode with no payload) the resolver
returns the incoming query unchanged. -/
theorem updateCurrentState_main_query (q : String) (h : List StoredEntry)
    (src grp : String) :
    (updateCurrentState q h src grp .main none).query = q := by
  by_cases hne : (capConvert h).isEmpty <;> simp [updateCurrentState, hne]

/-- C6 (amended): invoking a run in `edit` mode with a missing edit payload
raises nothing; the edit is silently ignored and the whole turn behaves
exactly as a `main`-mode turn. -/
theorem edit_missing_payload_as_main (store : ThreadStore) (t q : String)
    (b : Nat) (steps : List (Except AgentError (List BaseMsg))) :
    agetAgentResponse store t q .edit none b steps
      = agetAgentResponse store t q .main none b steps := by
  have hres : updateCurrentStateE store t q .edit none
      = updateCurrentStateE store t q .main none := by
    unfold updateCurrentStateE
    cases store t with
    | none => rfl
    | some trec => simp [updateCurrentState_edit_none]
  unfold agetAgentResponse
  rw [hres]
  cases hr : updateCurrentStateE store t q .main none with
  | error e => rfl
  | ok r =>
      have hq : r.query = q := by
        unfold updateCurrentStateE at hr
        cases hst : store t with
        | none => rw [hst] at hr; exact absurd hr (by simp)
        | some trec =>
            rw [hst] at hr
            have := Except.ok.inj hr
            rw [← this, updateCurrentState_main_query]
      simp [hq]

/-! ### C10: skipped entries still count toward the cap -/

/-- Twelve persisted entries: eleven convertible user entries and one
tool-role entry inside the 10-newest window. -/
def exHistC10 : List StoredEntry :=
  [.wire ⟨"user", "m1", []⟩, .wire ⟨"user", "m2", []⟩, .wire ⟨"user", "m3", []⟩,
   .wire ⟨"user", "m4", []⟩, .wire ⟨"user", "m5", []⟩, .wire ⟨"user", "m6", []⟩,
   .wire ⟨"user", "m7", []⟩, .wire ⟨"user", "m8", []⟩, .wire ⟨"user", "m9", []⟩,
   .wire ⟨"user", "m10", []⟩, .wire ⟨"tool", "t", []⟩, .wire ⟨"user", "m11", []⟩]

/-- C10: the 10-message cap counts every scanned entry of the reversed
history, converted or not: the capped list is the conversion of exactly the
10 most recent entries.  Hence on `exHistC10`, which has 11 convertible
entries, only 9 typed messages are retained because the non-convertible
tool-role entry inside the window still consumes one slot. -/
theorem cap_counts_skipped_entries :
    (∀ h : List StoredEntry,
      capConvert h = ((h.reverse.take 10).filterMap convertEntry).reverse) ∧
    (capConvert exHistC10).length = 9 ∧
    10 < (exHistC10.filter (fun e => (convertEntry e).isSome)).length :=
  ⟨capConvert_eq, by decide, by decide⟩

/-! ### Lemmas about the streaming fold -/

/-- The transcript entries one processed message contributes. -/
def entriesOf (m : BaseMsg) : List Wire :=
  match m with
  | .ai c _ =>
      let io := separateAiMessages c
      (if io.1 ≠ "" then [thinkEntry io.1] else []) ++
        (if io.2 ≠ "" then [answerEntry io.2] else [])
  | .tool name c =>
      let out := toolContentString name c
      if out ≠ "" then [toolEntry out] else []
  | _ => []

theorem processOne_mem (st : StreamState) (m : BaseMsg)
    (hm : fingerprint m ∈ st.hashes) : processOne st m = st := by
  simp [processOne, hm]

theorem processOne_not_mem (st : StreamState) (m : BaseMsg)
    (hm : fingerprint m ∉ st.hashes) :
    (processOne st m).transcript = st.transcript ++ entriesOf m ∧
    (processOne st m).hashes = fingerprint m :: st.hashes := by
  cases m with
  | human c meta => simp [processOne, hm, entriesOf]
  | otherMsg c => simp [processOne, hm, entriesOf]
  | ai c meta =>
      by_cases h1 : (separateAiMessages c).1 ≠ "" <;>
        by_cases h2 : (separateAiMessages c).2 ≠ "" <;>
          simp [processOne, hm, entriesOf, h1, h2, List.append_assoc]
  | tool name c =>
      by_cases hout : toolContentString name c ≠ "" <;>
        simp [processOne, hm, entriesOf, hout]

/-- The streaming invariant: the transcript is the initial transcript
followed by the entry blocks of the messages processed so far, whose
fingerprints are pairwise distinct and mirror `processed_hashes`. -/
def StreamInv (t0 : List Wire) (st : StreamState) : Prop :=
  ∃ procd : List BaseMsg,
    st.transcript = t0 ++ (procd.map entriesOf).flatten ∧
    procd.map fingerprint = st.hashes.reverse ∧
    st.hashes.Nodup

theorem streamInv_processOne {t0 : List Wire} {st : StreamState}
    (h : StreamInv t0 st) (m : BaseMsg) : StreamInv t0 (processOne st m) := by
  obtain ⟨procd, ht, hf, hn⟩ := h
  by_cases hm : fingerprint m ∈ st.hashes
  · rw [processOne_mem st m hm]
    exact ⟨procd, ht, hf, hn⟩
  · obtain ⟨ht', hh'⟩ := processOne_not_mem st m hm
    refine ⟨procd ++ [m], ?_, ?_, ?_⟩
    · rw [ht', ht]; simp [List.append_assoc]
    · rw [hh']; simp [hf]
    · rw [hh']; exact List.nodup_cons.mpr ⟨hm, hn⟩

theorem streamInv_foldl {t0 : List Wire} :
    ∀ (ms : List BaseMsg) (st : StreamState),
      StreamInv t0 st → StreamInv t0 (ms.foldl processOne st)
  | [], _, h => h
  | m :: rest, _, h => streamInv_foldl rest _ (streamInv_processOne h m)

theorem streamInv_processStep {t0 : List Wire} {q : String} {b : Nat}
    (st : StreamState) (msgs : List BaseMsg) (h : StreamInv t0 st) :
    StreamInv t0 (processStep q b st msgs) := by
  unfold processStep
  split
  · exact h
  · exact streamInv_foldl _ _ h

theorem streamInv_steps {t0 : List Wire} {q : String} {b : Nat} :
    ∀ (steps : List (List BaseMsg)) (st : StreamState),
      StreamInv t0 st → StreamInv t0 (steps.foldl (processStep q b) st)
  | [], _, h => h
  | s :: rest, st, h => streamInv_steps rest _ (streamInv_processStep st s h)

/-! ### C7: fingerprint deduplication -/

/-- C7: across one whole streaming call — any steps, any baseline — the
transcript grows by one block of entries per *distinct* fingerprint: there
is a list of processed messages whose fingerprints are pairwise distinct
whose blocks make up everything appended.  A (kind, content) pair occurring
in several cumulative steps therefore has its entries appended and yielded
at most once. -/
theorem stream_dedup (t0 : List Wire) (q : String) (b : Nat)
    (steps : List (List BaseMsg)) :
    ∃ procd : List BaseMsg,
      (astreamResponse t0 q b steps).transcript
        = t0 ++ (procd.map entriesOf).flatten ∧
      (procd.map fingerprint).Nodup := by
  unfold astreamResponse
  split
  · exact ⟨[], by simp, by simp⟩
  · have hinv : StreamInv t0 ⟨t0, [], []⟩ := ⟨[], by simp, by simp, by simp⟩
    obtain ⟨procd, ht, hf, hn⟩ := streamInv_steps steps _ hinv
    exact ⟨procd, ht, by rw [hf]; exact List.nodup_reverse.mpr hn⟩

/-! ### C8: tool call entries (corrected) -/

/-- C8 counterexample: the entry appended for a tool message starts with a
newline before `Content from ...`, so its content is not exactly the string
the claim gives. -/
theorem tool_entry_leading_newline :
    (astreamResponse [] "q" 0 [[BaseMsg.tool "shell" "out"]]).transcript
      = [⟨"assistant", "\nContent from `shell` toolcall:\nout",
          [("title", "Tool call output"), ("status", "done")]⟩] ∧
    "\nContent from `shell` toolcall:\nout" ≠ "Content from `shell` toolcall:\nout" :=
  ⟨by decide, by decide⟩

theorem toolContentString_ne_empty (name c : String) :
    toolContentString name c ≠ "" := by
  intro hcon
  rw [toolContentString] at hcon
  have hlen := congrArg String.length hcon
  rw [String.length_append, String.length_append, String.length_append] at hlen
  have h15 : ("\nContent from `" : String).length = 15 := by decide
  have h0 : ("" : String).length = 0 := by decide
  omega

/-- C8 (amended): for every tool message processed (fingerprint not yet
seen), the appended transcript entry has role `assistant`, metadata
`title: Tool call output`, `status: done`, and content equal to a newline
followed by `Content from (backtick)name(backtick) toolcall:`, a newline,
and the tool content — i.e. the claim's string with one leading newline. -/
theorem tool_message_entry (st : StreamState) (name c : String)
    (hm : fingerprint (BaseMsg.tool name c) ∉ st.hashes) :
    (processOne st (BaseMsg.tool name c)).transcript
      = st.transcript ++
        [⟨"assistant", toolContentString name c,
          [("title", "Tool call output"), ("status", "done")]⟩] ∧
    toolContentString name c
      = "\n" ++ "Content from `" ++ name ++ "` toolcall:\n" ++ c := by
  constructor
  · rw [(processOne_not_mem st _ hm).1]
    simp [entriesOf, toolEntry, toolContentString_ne_empty]
  · rw [toolContentString]
    rw [show ("\nContent from `" : String) = "\n" ++ "Content from `" by decide]

/-- C8 witness: the amended entry shape at a concrete tool message. -/
theorem tool_message_entry_witness :
    (fingerprint (BaseMsg.tool "shell" "out")
        ∉ (⟨[], [], []⟩ : StreamState).hashes) ∧
    ((processOne ⟨[], [], []⟩ (BaseMsg.tool "shell" "out")).transcript
      = ([] : List Wire) ++
        [⟨"assistant", toolContentString "shell" "out",
          [("title", "Tool call output"), ("status", "done")]⟩] ∧
      toolContentString "shell" "out"
        = "\n" ++ "Content from `" ++ "shell" ++ "` toolcall:\n" ++ "out") :=
  ⟨by decide, tool_message_entry ⟨[], [], []⟩ "shell" "out" (by decide)⟩

/-! ### C2: failures propagate and skip the persistence write -/

theorem runSteps_error_mem {q : String} {b : Nat} {e : AgentError} :
    ∀ (steps : List (Except AgentError (List BaseMsg))) (st : StreamState),
      runSteps q b steps st = .error e → Except.error e ∈ steps
  | [], _, h => by simp [runSteps] at h
  | .error e' :: rest, _, h => by
      rw [runSteps] at h
      rw [Except.error.inj h]
      exact List.mem_cons_self _ _
  | .ok msgs :: rest, st, h =>
      List.mem_cons_of_mem _ (runSteps_error_mem rest _ h)

/-- C2: whenever one `aget_agent_response` call ends in an error, the
persisted store is exactly what it was before the call (the persistence
write is skipped), and the error is the Mode Resolver's or one raised by a
step of the agent engine's stream, propagated unmodified. -/
theorem error_skips_persist (store : ThreadStore) (t q : String) (mode : Mode)
    (ed : Option EditData) (b : Nat)
    (steps : List (Except AgentError (List BaseMsg))) (e : AgentError)
    (herr : (agetAgentResponse store t q mode ed b steps).result = .error e) :
    (agetAgentResponse store t q mode ed b steps).store = store ∧
    (updateCurrentStateE store t q mode ed = .error e ∨
      Except.error e ∈ steps) := by
  unfold agetAgentResponse at herr ⊢
  cases hres : updateCurrentStateE store t q mode ed with
  | error e' =>
      rw [hres] at herr
      dsimp only at herr ⊢
      exact ⟨rfl, Or.inl (by rw [Except.error.inj herr])⟩
  | ok r =>
      rw [hres] at herr
      dsimp only at herr ⊢
      cases hstr : astreamResponseE r.transcript
          (if mode = .main then q else r.query) b steps with
      | error e' =>
          rw [hstr] at herr
          dsimp only at herr ⊢
          refine ⟨rfl, Or.inr ?_⟩
          rw [Except.error.inj herr] at hstr
          unfold astreamResponseE at hstr
          by_cases hq : (if mode = .main then q else r.query) = ""
          · rw [if_pos hq] at hstr
            exact absurd hstr (by simp)
          · rw [if_neg hq] at hstr
            exact runSteps_error_mem steps _ hstr
      | ok st' =>
          rw [hstr] at herr
          dsimp only at herr
          exact absurd herr (by simp)

/-- The empty thread store. -/
def emptyStore : ThreadStore := fun _ => none

/-- C2 witness: a missing thread record makes the resolver raise `KeyError`,
which propagates while the store stays untouched. -/
theorem error_skips_persist_witness :
    ((agetAgentResponse emptyStore "t1" "hi" .main none 0 []).result
        = .error .keyError) ∧
    ((agetAgentResponse emptyStore "t1" "hi" .main none 0 []).store = emptyStore ∧
      (updateCurrentStateE emptyStore "t1" "hi" .main none = .error .keyError ∨
        Except.error AgentError.keyError
          ∈ ([] : List (Except AgentError (List BaseMsg))))) :=
  ⟨rfl, error_skips_persist emptyStore "t1" "hi" .main none 0 [] .keyError rfl⟩

/-! ### C1: sliding-window retention over one main-mode turn -/

/-- The typed message a user/assistant wire entry standardizes to. -/
def wireToBase (w : Wire) : BaseMsg :=
  if w.role = "user" then .human w.content w.metadata else .ai w.content w.metadata

theorem convertEntry_wire (w : Wire)
    (hw : w.role = "user" ∨ w.role = "assistant") :
    convertEntry (.wire w) = some (wireToBase w) := by
  rcases hw with hr | hr <;> simp [convertEntry, wireToBase, hr]

theorem toWire_wireToBase (w : Wire)
    (hw : w.role = "user" ∨ w.role = "assistant") :
    toWire (wireToBase w) = some w := by
  obtain ⟨r, c, md⟩ := w
  rcases hw with hr | hr <;> simp at hr <;> simp [wireToBase, toWire, hr]

theorem filterMap_congr_some {α β : Type} (f : α → Option β) (u : α → β) :
    ∀ l : List α, (∀ x ∈ l, f x = some (u x)) → l.filterMap f = l.map u
  | [], _ => rfl
  | x :: xs, hx => by
      rw [List.filterMap_cons, hx x (by simp), List.map_cons,
        filterMap_congr_some f u xs (fun y hy => hx y (by simp [hy]))]

/-- The capped standardization of a history of user/assistant wire entries:
exactly the last 10 entries, each typed. -/
theorem capConvert_wires (hist : List Wire)
    (hr : ∀ w ∈ hist, w.role = "user" ∨ w.role = "assistant") :
    capConvert (hist.map .wire)
      = (hist.drop (hist.length - 10)).map wireToBase := by
  rw [capConvert_eq]
  rw [← List.map_reverse, ← List.map_take, List.filterMap_map]
  rw [filterMap_congr_some (convertEntry ∘ StoredEntry.wire) wireToBase _
    (fun w hw => convertEntry_wire w
      (hr w (List.mem_reverse.mp (List.mem_of_mem_take hw))))]
  rw [← List.map_reverse]
  rw [show (hist.reverse.take 10).reverse = hist.drop (hist.length - 10) from
    (List.rtake_eq_reverse_take_reverse hist 10).symm]

/-- `main` mode on a non-empty capped history: no truncation, the checkpoint
overwritten with the capped list, the echoed query appended. -/
theorem updateCurrentState_main (q : String) (h : List StoredEntry)
    (src grp : String) (hne : (capConvert h).isEmpty = false) (hq : q ≠ "") :
    updateCurrentState q h src grp .main none
      = ⟨q, (capConvert h).filterMap toWire ++ [echoWire q], src, grp,
          some (capConvert h)⟩ := by
  simp [updateCurrentState, hne, hq]

/-- Two stream states whose transcripts differ by a fixed prefix and share
the same seen-fingerprint set. -/
def ShiftRel (pre : List Wire) (st1 st2 : StreamState) : Prop :=
  st1.transcript = pre ++ st2.transcript ∧ st1.hashes = st2.hashes

theorem shiftRel_processOne {pre : List Wire} {st1 st2 : StreamState}
    (h : ShiftRel pre st1 st2) (m : BaseMsg) :
    ShiftRel pre (processOne st1 m) (processOne st2 m) := by
  obtain ⟨hT, hH⟩ := h
  by_cases hm : fingerprint m ∈ st2.hashes
  · rw [processOne_mem st2 m hm, processOne_mem st1 m (hH ▸ hm)]
    exact ⟨hT, hH⟩
  · obtain ⟨t1, h1⟩ := processOne_not_mem st1 m (hH ▸ hm)
    obtain ⟨t2, h2⟩ := processOne_not_mem st2 m hm
    exact ⟨by rw [t1, t2, hT, List.append_assoc],
           by rw [h1, h2, hH]⟩

theorem shiftRel_foldl {pre : List Wire} :
    ∀ (ms : List BaseMsg) {st1 st2 : StreamState}, ShiftRel pre st1 st2 →
      ShiftRel pre (ms.foldl processOne st1) (ms.foldl processOne st2)
  | [], _, _, h => h
  | m :: rest, _, _, h => shiftRel_foldl rest (shiftRel_processOne h m)

theorem shiftRel_processStep {pre : List Wire} {q : String} {b : Nat}
    {st1 st2 : StreamState} (msgs : List BaseMsg) (h : ShiftRel pre st1 st2) :
    ShiftRel pre (processStep q b st1 msgs) (processStep q b st2 msgs) := by
  unfold processStep
  split
  · exact h
  · exact shiftRel_foldl _ h

theorem shiftRel_steps {pre : List Wire} {q : String} {b : Nat} :
    ∀ (steps : List (List BaseMsg)) {st1 st2 : StreamState},
      ShiftRel pre st1 st2 →
      ShiftRel pre (steps.foldl (processStep q b) st1)
        (steps.foldl (processStep q b) st2)
  | [], _, _, h => h
  | s :: rest, _, _, h => shiftRel_steps rest (shiftRel_processStep s h)

/-- The entries one full stream run appends — independent of the initial
transcript it starts from. -/
def appendedEntries (q : String) (b : Nat) (steps : List (List BaseMsg)) :
    List Wire :=
  (astreamResponse [] q b steps).transcript

theorem astream_transcript_eq (t0 : List Wire) (q : String) (b : Nat)
    (steps : List (List BaseMsg)) :
    (astreamResponse t0 q b steps).transcript
      = t0 ++ appendedEntries q b steps := by
  unfold appendedEntries astreamResponse
  by_cases hq : q = ""
  · simp only [if_pos hq]
    simp
  · simp only [if_neg hq]
    exact (@shiftRel_steps t0 q b steps ⟨t0, [], []⟩ ⟨[], [], []⟩
      ⟨by simp, rfl⟩).1

theorem runSteps_ok {q : String} {b : Nat} :
    ∀ (steps : List (List BaseMsg)) (st : StreamState),
      runSteps q b (steps.map .ok) st = .ok (steps.foldl (processStep q b) st)
  | [], _ => rfl
  | _ :: rest, _ => runSteps_ok rest _

theorem astreamResponseE_ok (t0 : List Wire) (q : String) (b : Nat)
    (steps : List (List BaseMsg)) :
    astreamResponseE t0 q b (steps.map .ok)
      = .ok (astreamResponse t0 q b steps) := by
  unfold astreamResponseE astreamResponse
  split
  · rfl
  · exact runSteps_ok steps _

/-- C1: a successful `main`-mode turn on a persisted history of more than 10
user/assistant messages, with a non-empty query: the turn succeeds, and the
thread's persisted transcript afterwards is exactly the last 10 pre-existing
messages followed by the echoed user entry and every entry the stream
appended — everything earlier is gone. -/
theorem main_turn_persists_capped (store : ThreadStore) (t : String)
    (hist : List Wire) (src grp q : String) (b : Nat)
    (steps : List (List BaseMsg))
    (hstore : store t = some ⟨hist.map .wire, src, grp⟩)
    (hlen : 10 < hist.length)
    (hr : ∀ w ∈ hist, w.role = "user" ∨ w.role = "assistant")
    (hq : q ≠ "") :
    (∃ ys, (agetAgentResponse store t q .main none b (steps.map .ok)).result
      = .ok ys) ∧
    (agetAgentResponse store t q .main none b (steps.map .ok)).store t
      = some ⟨(hist.drop (hist.length - 10)
                ++ echoWire q :: appendedEntries q b steps).map .wire,
              src, grp⟩ := by
  have hcap := capConvert_wires hist hr
  have hlen10 : (hist.drop (hist.length - 10)).length = 10 := by
    rw [List.length_drop]
    omega
  have hne : (capConvert (hist.map .wire)).isEmpty = false := by
    rw [hcap, List.isEmpty_eq_false]
    intro hnil
    have hc := congrArg List.length hnil
    rw [List.length_map, hlen10] at hc
    simp at hc
  have hback : (capConvert (hist.map .wire)).filterMap toWire
      = hist.drop (hist.length - 10) := by
    rw [hcap, List.filterMap_map,
      filterMap_congr_some (toWire ∘ wireToBase) id _
        (fun w hw => toWire_wireToBase w (hr w (List.mem_of_mem_drop hw))),
      List.map_id]
  have hres : updateCurrentStateE store t q .main none
      = .ok ⟨q, (hist.drop (hist.length - 10)) ++ [echoWire q], src, grp,
          some (capConvert (hist.map .wire))⟩ := by
    unfold updateCurrentStateE
    rw [hstore]
    dsimp only
    rw [updateCurrentState_main q _ src grp hne hq, hback]
  unfold agetAgentResponse
  rw [hres]
  simp only []
  rw [astreamResponseE_ok]
  simp only []
  constructor
  · exact ⟨_, rfl⟩
  · rw [updateThreadHistory]
    simp only [if_pos rfl]
    rw [astream_transcript_eq]
    rw [List.append_assoc]
    rfl

/-- A 12-message example history of alternating user/assistant entries. -/
def exHistC1 : List Wire :=
  [⟨"user", "u1", []⟩, ⟨"assistant", "a1", []⟩, ⟨"user", "u2", []⟩,
   ⟨"assistant", "a2", []⟩, ⟨"user", "u3", []⟩, ⟨"assistant", "a3", []⟩,
   ⟨"user", "u4", []⟩, ⟨"assistant", "a4", []⟩, ⟨"user", "u5", []⟩,
   ⟨"assistant", "a5", []⟩, ⟨"user", "u6", []⟩, ⟨"assistant", "a6", []⟩]

/-- The example store holding `exHistC1` under thread `t1`. -/
def exStoreC1 : ThreadStore := fun t =>
  if t = "t1" then some ⟨exHistC1.map .wire, "s", "g"⟩ else none

/-- C1 witness: the capped-persistence theorem applied to the concrete
12-message history, query `"hi"` and one assistant step. -/
theorem main_turn_persists_capped_witness :
    (exStoreC1 "t1" = some ⟨exHistC1.map .wire, "s", "g"⟩) ∧
    (10 < exHistC1.length) ∧
    (∀ w ∈ exHistC1, w.role = "user" ∨ w.role = "assistant") ∧
    ("hi" ≠ "") ∧
    ((∃ ys, (agetAgentResponse exStoreC1 "t1" "hi" .main none 0
        ([[BaseMsg.ai "fine" []]].map .ok)).result = .ok ys) ∧
      (agetAgentResponse exStoreC1 "t1" "hi" .main none 0
          ([[BaseMsg.ai "fine" []]].map .ok)).store "t1"
        = some ⟨(exHistC1.drop (exHistC1.length - 10)
                  ++ echoWire "hi" :: appendedEntries "hi" 0 [[BaseMsg.ai "fine" []]]).map .wire,
                "s", "g"⟩) :=
  ⟨rfl, by decide, by decide, by decide,
    main_turn_persists_capped exStoreC1 "t1" exHistC1 "s" "g" "hi" 0
      [[BaseMsg.ai "fine" []]] rfl (by decide) (by decide) (by decide)⟩

end PyCoder
